import Mathlib

/-!
Shallow embedding of the decision engine of `giveaway_bot.py`
(Atterratio/giveaway-bot): the lazy attribute cache (`caching_property`),
the filter methods of `Harvester`, the filter-chain construction in
`Harvester.__init__`, the budget-constrained selection loop
(`Harvester._sow`), and the worker result protocol
(`Parser._crash` / `Harvester.start`).

Python dict items `{'title': ..., 'href': ...}` are modelled by `Entry`;
a giveaway object (with its scraped and lazily resolved facts already
materialised as values) is modelled by `Giveaway`; a configured filter
chain element (a Python `str` or a two-element `list` produced by
splitting `name=arg`) is modelled by `Flt`.
-/

set_option autoImplicit false

/-- A `{'title', 'href'}` dict as appended by `_sow` and `_reap`. -/
structure Entry where
  title : String
  href : String
deriving DecidableEq

/-- One giveaway candidate with its per-candidate facts.  `points` is the
entry cost, `level` the required contributor level, `trust_points` the
author reputation; the boolean flags and `os_list` are the facts the
filter methods read (in the source some are lazily resolved; here they
appear as the values that resolution yields). -/
structure Giveaway where
  title : String
  href : String
  entered : Bool
  level : Int
  points : Int
  trust_points : Int
  in_library : Bool
  in_wishlist : Bool
  dlc : Bool
  cards : Bool
  os_list : List String
deriving DecidableEq

/-- A filter-chain element: `Flt.bare n` models the Python string `n`,
`Flt.arged n a` models the two-element list `[n, a]` obtained from a
configured token `n=a`. -/
inductive Flt where
  | bare (name : String)
  | arged (name : String) (arg : String)
deriving DecidableEq

/-- Python `int()` applied to the (decimal numeral) string argument of a
parameterized filter. -/
def pyInt (s : String) : Int :=
  (s.toInt?).getD 0

/-! ### The filter methods of `Harvester` (giveaway_bot.py lines 418-509).
Each Python list comprehension `[g for g in giveaways if P g]` becomes
`List.filter`. -/

/-- Python `Harvester._filter_trust`: keep giveaways with positive author trust. -/
def filter_trust (giveaways : List Giveaway) : List Giveaway :=
  giveaways.filter (fun g => decide (0 < g.trust_points))

/-- Python `Harvester._arged_filter_trust`: `trust <= -1` disables the filter,
otherwise keep giveaways with `trust_points >= trust`. -/
def arged_filter_trust (giveaways : List Giveaway) (trust : Int) : List Giveaway :=
  if trust ≤ -1 then giveaways
  else giveaways.filter (fun g => decide (trust ≤ g.trust_points))

/-- Python `Harvester._arged_filter_max_points`: keep giveaways costing at most
`points`. -/
def arged_filter_max_points (giveaways : List Giveaway) (points : Int) : List Giveaway :=
  giveaways.filter (fun g => decide (g.points ≤ points))

/-- Python `Harvester._arged_filter_min_points`: keep giveaways costing at least
`points`. -/
def arged_filter_min_points (giveaways : List Giveaway) (points : Int) : List Giveaway :=
  giveaways.filter (fun g => decide (points ≤ g.points))

/-- Python `Harvester._filter_level`: keep giveaways whose required level is at
most the harvester account level. -/
def filter_level (lvl : Int) (giveaways : List Giveaway) : List Giveaway :=
  giveaways.filter (fun g => decide (g.level ≤ lvl))

/-- Python `Harvester._arged_filter_min_level`: keep giveaways of required level
at least `lvl`. -/
def arged_filter_min_level (giveaways : List Giveaway) (lvl : Int) : List Giveaway :=
  giveaways.filter (fun g => decide (lvl ≤ g.level))

/-- Python `Harvester._arged_filter_os`: the argument `"all"` disables the
filter, any other argument keeps giveaways whose supported OS list
contains it. -/
def arged_filter_os (giveaways : List Giveaway) (os : String) : List Giveaway :=
  if os = "all" then giveaways
  else giveaways.filter (fun g => g.os_list.contains os)

/-- Python `Harvester._filter_entered`: drop giveaways already entered. -/
def filter_entered (giveaways : List Giveaway) : List Giveaway :=
  giveaways.filter (fun g => !g.entered)

/-- Python `Harvester._filter_library`: drop giveaways of games already owned. -/
def filter_library (giveaways : List Giveaway) : List Giveaway :=
  giveaways.filter (fun g => !g.in_library)

/-- Python `Harvester._filter_wishlist`: keep only wishlist games. -/
def filter_wishlist (giveaways : List Giveaway) : List Giveaway :=
  giveaways.filter (fun g => g.in_wishlist)

/-- Python `Harvester._filter_dlc`: drop DLC giveaways. -/
def filter_dlc (giveaways : List Giveaway) : List Giveaway :=
  giveaways.filter (fun g => !g.dlc)

/-- Python `Harvester._filter_cards`: keep giveaways of games with trading
cards. -/
def filter_cards (giveaways : List Giveaway) : List Giveaway :=
  giveaways.filter (fun g => g.cards)

/-- The bare filter names for which a `_filter_<name>` method exists on
`Harvester`. -/
def bare_filter_names : List String :=
  ["trust", "level", "entered", "library", "wishlist", "dlc", "cards"]

/-- The filter names for which an `_arged_filter_<name>` method exists on
`Harvester`. -/
def arged_filter_names : List String :=
  ["trust", "max_points", "min_points", "min_level", "os"]

/-- Dynamic dispatch of one chain element in `_sow`
(`getattr(self, "_filter_%s" % flt)` resp. `"_arged_filter_%s"`): a name
with no matching method raises `AttributeError`, which `_sow` catches and
skips, leaving the list unchanged. -/
def applyFilter (lvl : Int) (flt : Flt) (giveaways : List Giveaway) : List Giveaway :=
  match flt with
  | Flt.bare name =>
    if name = "trust" then filter_trust giveaways
    else if name = "level" then filter_level lvl giveaways
    else if name = "entered" then filter_entered giveaways
    else if name = "library" then filter_library giveaways
    else if name = "wishlist" then filter_wishlist giveaways
    else if name = "dlc" then filter_dlc giveaways
    else if name = "cards" then filter_cards giveaways
    else giveaways
  | Flt.arged name arg =>
    if name = "trust" then arged_filter_trust giveaways (pyInt arg)
    else if name = "max_points" then arged_filter_max_points giveaways (pyInt arg)
    else if name = "min_points" then arged_filter_min_points giveaways (pyInt arg)
    else if name = "min_level" then arged_filter_min_level giveaways (pyInt arg)
    else if name = "os" then arged_filter_os giveaways arg
    else giveaways

/-- The membership test `flt not in self.internal_filters` in `_sow`:
`internal_filters` is a list of strings, so a bare element matches by
string equality while an `[name, arg]` list element never equals a
string. -/
def isInternal (internal : List String) : Flt → Bool
  | Flt.bare name => decide (name ∈ internal)
  | Flt.arged _ _ => false

/-- One iteration of the filter loop in `_sow`: elements found in
`internal_filters` are skipped locally, the rest are dispatched. -/
def chainStep (lvl : Int) (internal : List String) (giveaways : List Giveaway) (flt : Flt) :
    List Giveaway :=
  if isInternal internal flt then giveaways else applyFilter lvl flt giveaways

/-- The filter loop of `_sow` over a whole chain, in chain order, each
element consuming the output of the previous one. -/
def pipeline (lvl : Int) (internal : List String) (chain : List Flt)
    (giveaways : List Giveaway) : List Giveaway :=
  chain.foldl (chainStep lvl internal) giveaways

/-- The filter-chain construction in `Harvester.__init__` (lines
315-339): start from `required_filters`, append each configured element
not already present (in configuration order), drop `disabled_filters`,
and finally, when `"wishlist"` is present, remove the first occurrence of
`"library"` (`list.remove`; an absent element raises `ValueError`, which
is caught and ignored — `List.erase` has exactly that behaviour). -/
def buildFilters (required configured disabled : List Flt) : List Flt :=
  let merged := configured.foldl (fun acc x => if x ∈ acc then acc else acc ++ [x]) required
  let enabled := merged.filter (fun f => decide (f ∉ disabled))
  if Flt.bare "wishlist" ∈ enabled then enabled.erase (Flt.bare "library") else enabled

/-! ### The selection engine `Harvester._sow` (lines 368-404).

The loop body is instrumented: besides the returned
`giveaways_enter` list and the final point budget, the model records
every call of `_enter_giveaway` (with its status and the budget before
and after the call) and the number of `_get_giveaways` calls, so that
the halt and budget properties can be stated about what the code
actually did.  The remote entry action is an arbitrary function
`enter : Giveaway → String` returning the status string that
`giveaway.enter()` yields; `_sow` compares it with `"ok"`. -/

/-- One recorded `_enter_giveaway` call: the candidate, the returned
status, and the point budget before and after the call. -/
structure Attempt where
  g : Giveaway
  status : String
  before : Int
  after : Int
deriving DecidableEq

/-- Result of the inner `for giveaway in giveaways` loop of `_sow` on one
(filtered) page: final budget, entries appended, attempts made, and
whether the loop ran to completion (`cont = true`) or hit the
`Not Enough Points` break that sets `sow = False`. -/
structure PageRun where
  points : Int
  entered : List Entry
  attempts : List Attempt
  cont : Bool
deriving DecidableEq

/-- The inner loop of `_sow` over one filtered page, from budget
`points`: an affordable candidate (`points >= giveaway.points`) is
attempted, and on status `"ok"` its cost is deducted and a
`{'title', 'href'}` entry appended; any other status changes nothing; an
unaffordable candidate stops the whole engine (`sow = False; break`). -/
def sowPage (enter : Giveaway → String) : List Giveaway → Int → PageRun
  | [], points => ⟨points, [], [], true⟩
  | g :: rest, points =>
    if g.points ≤ points then
      if enter g = "ok" then
        ⟨(sowPage enter rest (points - g.points)).points,
         ⟨g.title, g.href⟩ :: (sowPage enter rest (points - g.points)).entered,
         ⟨g, enter g, points, points - g.points⟩ :: (sowPage enter rest (points - g.points)).attempts,
         (sowPage enter rest (points - g.points)).cont⟩
      else
        ⟨(sowPage enter rest points).points,
         (sowPage enter rest points).entered,
         ⟨g, enter g, points, points⟩ :: (sowPage enter rest points).attempts,
         (sowPage enter rest points).cont⟩
    else ⟨points, [], [], false⟩

/-- Result of a whole `_sow` run: the returned `giveaways_enter` list,
the final budget, all recorded attempts, and the number of
`_get_giveaways` calls made. -/
structure SowRun where
  entered : List Entry
  points : Int
  attempts : List Attempt
  pagesFetched : Nat
deriving DecidableEq

/-- The `while sow` loop of `_sow`.  The page source is modelled as the
list of pages that `_get_giveaways` returns for pages 1, 2, ...; past
the end of the list `_get_giveaways` returns an empty page.  A fetched
empty page breaks the loop (`if not giveaways: break`); otherwise the
filter loop (`pipeline`) runs and then the inner entry loop; if the
inner loop set `sow = False` the while loop stops, else the next page is
fetched. -/
def sowLoop (enter : Giveaway → String) (lvl : Int) (internal : List String)
    (chain : List Flt) : List (List Giveaway) → Int → SowRun
  | [], points => ⟨[], points, [], 1⟩
  | pg :: rest, points =>
    if pg = [] then ⟨[], points, [], 1⟩
    else
      let r := sowPage enter (pipeline lvl internal chain pg) points
      if r.cont then
        let s := sowLoop enter lvl internal chain rest r.points
        ⟨r.entered ++ s.entered, s.points, r.attempts ++ s.attempts, s.pagesFetched + 1⟩
      else ⟨r.entered, r.points, r.attempts, 1⟩

/-- Python `Harvester._sow`: starts from page 1 with the budget `self.points`
reported by the site. -/
def sow (enter : Giveaway → String) (lvl : Int) (internal : List String)
    (chain : List Flt) (pages : List (List Giveaway)) (balance : Int) : SowRun :=
  sowLoop enter lvl internal chain pages balance

/-- Total cost of the successful (status `"ok"`) attempts, i.e. of the
entered candidates. -/
def okCost : List Attempt → Int
  | [] => 0
  | a :: rest => (if a.status = "ok" then a.g.points else 0) + okCost rest

/-- The recorded attempts form one connected budget trace from `p` to
`q`: each attempt starts at the budget the previous one ended with. -/
def linked (p : Int) (attempts : List Attempt) (q : Int) : Bool :=
  match attempts with
  | [] => q == p
  | a :: rest => (a.before == p) && linked a.after rest q

/-! ### The lazy attribute cache `caching_property` (lines 30-41).

The wrapper reads `self.cached_<name>`; on `AttributeError` (no cached
value yet) it calls the wrapped property once, stores the result and
returns the stored value.  The cache slot is modelled as an
`Option`, a read as a state transition that also reports how many calls
of the wrapped property it performed. -/

/-- Outcome of one read through `caching_property`: the returned value,
the cache slot afterwards, and the number of calls of the wrapped
property made by this read. -/
structure CacheRead (α : Type) where
  value : α
  cache : Option α
  calls : Nat
deriving DecidableEq

/-- One read of a fact through `caching_property`, where `prop` is the
value the wrapped property computes. -/
def caching_property {α : Type} (prop : α) : Option α → CacheRead α
  | some v => ⟨v, some v, 0⟩
  | none => ⟨prop, some prop, 1⟩

/-- Total number of wrapped-property calls performed by `n` successive
reads starting from cache state `c`. -/
def readCalls {α : Type} (prop : α) : Option α → Nat → Nat
  | _, 0 => 0
  | c, n + 1 =>
    (caching_property prop c).calls + readCalls prop (caching_property prop c).cache n

/-! ### The worker result protocol (`Parser._crash`, lines 123-133, and
`Harvester.start`, lines 341-356).

`_crash` puts one error-tagged result on the queue and raises
`SystemExit`, so nothing later in `start` runs; a completed `start` puts
one ok-tagged result carrying the `_sow` and `_reap` lists.  A fallible
step of the cycle is an `Except String`, whose `error` case means
`_crash msg` was invoked.  The model computes the full list of messages
the cycle puts on the queue (timestamps are omitted). -/

/-- A message on the worker queue: `results['status']` is `'ok'` with the
`sow` and `reap` lists, or `'error'` with a message. -/
inductive WorkResult where
  | ok (sow : List Entry) (reap : List Entry)
  | error (msg : String)
deriving DecidableEq

/-- Python `Parser._crash msg`: the queue receives exactly one error result and
the process exits. -/
def crash (msg : String) : List WorkResult :=
  [WorkResult.error msg]

/-- Python `Harvester.start`: run `_sow`, then `_reap`, then put one ok result;
a `_crash` anywhere inside aborts with its single error result already
on the queue. -/
def harvesterStart (sowRun : Except String (List Entry))
    (reapRun : Except String (List Entry)) : List WorkResult :=
  match sowRun with
  | Except.error m => crash m
  | Except.ok s =>
    match reapRun with
    | Except.error m => crash m
    | Except.ok rp => [WorkResult.ok s rp]

/-- Python `Parser._login_check`: if the login marker element was found the
parse proceeds, otherwise `_crash` fires with a check-cookie message
(the original text, with the site name interpolated, is abbreviated
here). -/
def login_check (found : Bool) : Except String Unit :=
  if found then Except.ok () else Except.error "cannot login, check cookie"

/-- A cycle step guarded by `_login_check` (every page fetch in the
source first fetches a page and runs `_login_check` on it): when the
marker is absent the whole step crashes before `rest` runs. -/
def checkedStep {α : Type} (found : Bool) (rest : Except String α) : Except String α :=
  match login_check found with
  | Except.error m => Except.error m
  | Except.ok _ => rest

/-- One whole worker cycle in which the first fetch (of the point
balance) is guarded by `_login_check` and, on success, the selection
engine and the claim scanner complete normally. -/
def workerCycle (found : Bool) (enter : Giveaway → String) (lvl : Int)
    (internal : List String) (chain : List Flt) (pages : List (List Giveaway))
    (balance : Int) (reap : List Entry) : List WorkResult :=
  harvesterStart
    (checkedStep found (Except.ok (sow enter lvl internal chain pages balance).entered))
    (Except.ok reap)

/-- Number of ok-tagged results in a queue trace. -/
def countOk (rs : List WorkResult) : Nat :=
  rs.countP (fun r => match r with | WorkResult.ok _ _ => true | _ => false)

/-- Number of error-tagged results in a queue trace. -/
def countError (rs : List WorkResult) : Nat :=
  rs.countP (fun r => match r with | WorkResult.error _ => true | _ => false)

/-- A concrete candidate for witnesses: eligible for every filter, with
the given title, cost and supported OS list. -/
def mkG (title : String) (cost : Int) (os : List String) : Giveaway :=
  ⟨title, "https://example.com/g/" ++ title, false, 1, cost, 1, false, true, false, true, os⟩

/-! ### Lemmas about the filter pipeline -/

theorem applyFilter_sublist (lvl : Int) (flt : Flt) (gs : List Giveaway) :
    (applyFilter lvl flt gs).Sublist gs := by
  cases flt with
  | bare name =>
    simp only [applyFilter, filter_trust, filter_level, filter_entered, filter_library,
      filter_wishlist, filter_dlc, filter_cards]
    repeat' split
    all_goals first
      | exact List.filter_sublist _
      | exact List.Sublist.refl _
  | arged name arg =>
    simp only [applyFilter, arged_filter_trust, arged_filter_max_points,
      arged_filter_min_points, arged_filter_min_level, arged_filter_os]
    repeat' split
    all_goals first
      | exact List.filter_sublist _
      | exact List.Sublist.refl _

theorem chainStep_sub (lvl : Int) (internal : List String) (gs : List Giveaway)
    (flt : Flt) : (chainStep lvl internal gs flt).Sublist gs := by
  unfold chainStep
  split
  · exact List.Sublist.refl _
  · exact applyFilter_sublist lvl flt gs

theorem pipeline_sub (lvl : Int) (internal : List String) (chain : List Flt)
    (gs : List Giveaway) : (pipeline lvl internal chain gs).Sublist gs := by
  induction chain generalizing gs with
  | nil => exact List.Sublist.refl gs
  | cons f rest ih =>
    simp only [pipeline, List.foldl_cons]
    exact (ih (chainStep lvl internal gs f)).trans (chainStep_sub lvl internal gs f)

/-! ### Lemmas about the inner page loop of `_sow` -/

theorem okCost_append (xs ys : List Attempt) :
    okCost (xs ++ ys) = okCost xs + okCost ys := by
  induction xs with
  | nil => simp [okCost]
  | cons a xs ih => simp [okCost, ih]; ring

theorem linked_append {p q r : Int} {xs ys : List Attempt}
    (h1 : linked p xs q = true) (h2 : linked q ys r = true) :
    linked p (xs ++ ys) r = true := by
  induction xs generalizing p with
  | nil =>
    simp only [linked, beq_iff_eq] at h1
    simpa [h1] using h2
  | cons a xs ih =>
    simp only [linked, Bool.and_eq_true, beq_iff_eq] at h1 ⊢
    exact ⟨h1.1, ih h1.2⟩

theorem sowPage_points_eq (enter : Giveaway → String) (gs : List Giveaway) (points : Int) :
    (sowPage enter gs points).points = points - okCost (sowPage enter gs points).attempts := by
  induction gs generalizing points with
  | nil => simp [sowPage, okCost]
  | cons g rest ih =>
    by_cases h1 : g.points ≤ points
    · by_cases h2 : enter g = "ok"
      · have hrec := ih (points - g.points)
        simp [sowPage, h1, h2, okCost]
        omega
      · have hrec := ih points
        simp [sowPage, h1, h2, okCost]
        omega
    · simp [sowPage, if_neg h1, okCost]

theorem sowPage_linked (enter : Giveaway → String) (gs : List Giveaway) (points : Int) :
    linked points (sowPage enter gs points).attempts (sowPage enter gs points).points = true := by
  induction gs generalizing points with
  | nil => simp [sowPage, linked]
  | cons g rest ih =>
    by_cases h1 : g.points ≤ points
    · by_cases h2 : enter g = "ok"
      · simpa [sowPage, if_pos h1, if_pos h2, linked] using ih (points - g.points)
      · simpa [sowPage, if_pos h1, if_neg h2, linked] using ih points
    · simp [sowPage, if_neg h1, linked]

theorem sowPage_attempt_eq (enter : Giveaway → String) (gs : List Giveaway) (points : Int) :
    ∀ a ∈ (sowPage enter gs points).attempts,
      a.after = if a.status = "ok" then a.before - a.g.points else a.before := by
  induction gs generalizing points with
  | nil => simp [sowPage]
  | cons g rest ih =>
    by_cases h1 : g.points ≤ points
    · by_cases h2 : enter g = "ok"
      · intro a ha
        simp only [sowPage, if_pos h1, if_pos h2, List.mem_cons] at ha
        rcases ha with ha | ha
        · subst ha; simp [h2]
        · exact ih (points - g.points) a ha
      · intro a ha
        simp only [sowPage, if_pos h1, if_neg h2, List.mem_cons] at ha
        rcases ha with ha | ha
        · subst ha; simp [h2]
        · exact ih points a ha
    · simp [sowPage, if_neg h1]

theorem sowPage_points_nonneg (enter : Giveaway → String) (gs : List Giveaway)
    (points : Int) (hp : 0 ≤ points) : 0 ≤ (sowPage enter gs points).points := by
  induction gs generalizing points with
  | nil => simpa [sowPage] using hp
  | cons g rest ih =>
    by_cases h1 : g.points ≤ points
    · by_cases h2 : enter g = "ok"
      · simpa [sowPage, if_pos h1, if_pos h2] using ih (points - g.points) (by omega)
      · simpa [sowPage, if_pos h1, if_neg h2] using ih points hp
    · simpa [sowPage, if_neg h1] using hp

theorem sowPage_attempts_mem (enter : Giveaway → String) (gs : List Giveaway)
    (points : Int) : ∀ a ∈ (sowPage enter gs points).attempts, a.g ∈ gs := by
  induction gs generalizing points with
  | nil => simp [sowPage]
  | cons g rest ih =>
    by_cases h1 : g.points ≤ points
    · by_cases h2 : enter g = "ok"
      · intro a ha
        simp only [sowPage, if_pos h1, if_pos h2, List.mem_cons] at ha
        rcases ha with ha | ha
        · subst ha; exact List.mem_cons_self _ _
        · exact List.mem_cons_of_mem _ (ih (points - g.points) a ha)
      · intro a ha
        simp only [sowPage, if_pos h1, if_neg h2, List.mem_cons] at ha
        rcases ha with ha | ha
        · subst ha; exact List.mem_cons_self _ _
        · exact List.mem_cons_of_mem _ (ih points a ha)
    · simp [sowPage, if_neg h1]

theorem sowPage_cont_map (enter : Giveaway → String) (gs : List Giveaway) (points : Int)
    (h : (sowPage enter gs points).cont = true) :
    (sowPage enter gs points).attempts.map (fun a => a.g) = gs := by
  induction gs generalizing points with
  | nil => simp [sowPage]
  | cons g rest ih =>
    by_cases h1 : g.points ≤ points
    · by_cases h2 : enter g = "ok"
      · simp only [sowPage, if_pos h1, if_pos h2] at h ⊢
        simpa using ih (points - g.points) h
      · simp only [sowPage, if_pos h1, if_neg h2] at h ⊢
        simpa using ih points h
    · simp [sowPage, if_neg h1] at h

theorem sowPage_entered_eq (enter : Giveaway → String) (gs : List Giveaway) (points : Int) :
    (sowPage enter gs points).entered =
      ((sowPage enter gs points).attempts.filter (fun a => a.status == "ok")).map
        (fun a => ⟨a.g.title, a.g.href⟩) := by
  induction gs generalizing points with
  | nil => simp [sowPage]
  | cons g rest ih =>
    by_cases h1 : g.points ≤ points
    · by_cases h2 : enter g = "ok"
      · simp only [sowPage, if_pos h1, if_pos h2]
        simp [List.filter_cons, h2, ih (points - g.points)]
      · simp only [sowPage, if_pos h1, if_neg h2]
        simp [List.filter_cons, h2, ih points]
    · simp [sowPage, if_neg h1]

theorem sowPage_append_halt (enter : Giveaway → String) (pre : List Giveaway)
    (g : Giveaway) (post : List Giveaway) (points : Int)
    (hcont : (sowPage enter pre points).cont = true)
    (hexp : (sowPage enter pre points).points < g.points) :
    sowPage enter (pre ++ g :: post) points =
      ⟨(sowPage enter pre points).points, (sowPage enter pre points).entered,
       (sowPage enter pre points).attempts, false⟩ := by
  induction pre generalizing points with
  | nil =>
    simp only [sowPage, List.nil_append] at hexp ⊢
    rw [if_neg (by omega)]
  | cons p pre ih =>
    by_cases h1 : p.points ≤ points
    · by_cases h2 : enter p = "ok"
      · have h3 := ih (points - p.points)
          (by simpa [sowPage, if_pos h1, if_pos h2] using hcont)
          (by simpa [sowPage, if_pos h1, if_pos h2] using hexp)
        simp [sowPage, if_pos h1, if_pos h2, h3]
      · have h3 := ih points
          (by simpa [sowPage, if_pos h1, if_neg h2] using hcont)
          (by simpa [sowPage, if_pos h1, if_neg h2] using hexp)
        simp [sowPage, if_pos h1, if_neg h2, h3]
    · simp [sowPage, if_neg h1] at hcont

/-! ### Lemmas about the page loop of `_sow` -/

theorem sowLoop_points_eq (enter : Giveaway → String) (lvl : Int)
    (internal : List String) (chain : List Flt) (pages : List (List Giveaway))
    (points : Int) :
    (sowLoop enter lvl internal chain pages points).points =
      points - okCost (sowLoop enter lvl internal chain pages points).attempts := by
  induction pages generalizing points with
  | nil => simp [sowLoop, okCost]
  | cons pg rest ih =>
    by_cases hpg : pg = []
    · simp [sowLoop, hpg, okCost]
    · by_cases hc : (sowPage enter (pipeline lvl internal chain pg) points).cont = true
      · have h1 := sowPage_points_eq enter (pipeline lvl internal chain pg) points
        have h2 := ih (sowPage enter (pipeline lvl internal chain pg) points).points
        simp [sowLoop, hpg, hc, okCost_append]
        omega
      · have h1 := sowPage_points_eq enter (pipeline lvl internal chain pg) points
        simp [sowLoop, hpg, hc]
        omega

theorem sowLoop_linked (enter : Giveaway → String) (lvl : Int)
    (internal : List String) (chain : List Flt) (pages : List (List Giveaway))
    (points : Int) :
    linked points (sowLoop enter lvl internal chain pages points).attempts
      (sowLoop enter lvl internal chain pages points).points = true := by
  induction pages generalizing points with
  | nil => simp [sowLoop, linked]
  | cons pg rest ih =>
    by_cases hpg : pg = []
    · simp [sowLoop, hpg, linked]
    · by_cases hc : (sowPage enter (pipeline lvl internal chain pg) points).cont = true
      · have h1 := sowPage_linked enter (pipeline lvl internal chain pg) points
        have h2 := ih (sowPage enter (pipeline lvl internal chain pg) points).points
        simp only [sowLoop, if_neg hpg, hc, if_true]
        exact linked_append h1 h2
      · have h1 := sowPage_linked enter (pipeline lvl internal chain pg) points
        simpa [sowLoop, hpg, hc] using h1

theorem sowLoop_attempt_eq (enter : Giveaway → String) (lvl : Int)
    (internal : List String) (chain : List Flt) (pages : List (List Giveaway))
    (points : Int) :
    ∀ a ∈ (sowLoop enter lvl internal chain pages points).attempts,
      a.after = if a.status = "ok" then a.before - a.g.points else a.before := by
  induction pages generalizing points with
  | nil => simp [sowLoop]
  | cons pg rest ih =>
    by_cases hpg : pg = []
    · simp [sowLoop, hpg]
    · by_cases hc : (sowPage enter (pipeline lvl internal chain pg) points).cont = true
      · intro a ha
        simp only [sowLoop, if_neg hpg, hc, if_true, List.mem_append] at ha
        rcases ha with ha | ha
        · exact sowPage_attempt_eq enter (pipeline lvl internal chain pg) points a ha
        · exact ih _ a ha
      · intro a ha
        simp only [sowLoop, if_neg hpg, hc, if_false, Bool.false_eq_true] at ha
        exact sowPage_attempt_eq enter (pipeline lvl internal chain pg) points a ha

theorem sowLoop_points_nonneg (enter : Giveaway → String) (lvl : Int)
    (internal : List String) (chain : List Flt) (pages : List (List Giveaway))
    (points : Int) (hp : 0 ≤ points) :
    0 ≤ (sowLoop enter lvl internal chain pages points).points := by
  induction pages generalizing points with
  | nil => simpa [sowLoop] using hp
  | cons pg rest ih =>
    by_cases hpg : pg = []
    · simpa [sowLoop, hpg] using hp
    · by_cases hc : (sowPage enter (pipeline lvl internal chain pg) points).cont = true
      · have h1 := sowPage_points_nonneg enter (pipeline lvl internal chain pg) points hp
        simpa [sowLoop, hpg, hc] using ih _ h1
      · have h1 := sowPage_points_nonneg enter (pipeline lvl internal chain pg) points hp
        simpa [sowLoop, hpg, hc] using h1

theorem sowLoop_attempts_g_mem (enter : Giveaway → String) (lvl : Int)
    (internal : List String) (chain : List Flt) (pages : List (List Giveaway))
    (points : Int) :
    ∀ a ∈ (sowLoop enter lvl internal chain pages points).attempts,
      ∃ pg ∈ pages, a.g ∈ pg := by
  induction pages generalizing points with
  | nil => simp [sowLoop]
  | cons pg rest ih =>
    by_cases hpg : pg = []
    · simp [sowLoop, hpg]
    · by_cases hc : (sowPage enter (pipeline lvl internal chain pg) points).cont = true
      · intro a ha
        simp only [sowLoop, if_neg hpg, hc, if_true, List.mem_append] at ha
        rcases ha with ha | ha
        · exact ⟨pg, List.mem_cons_self _ _,
            (pipeline_sub lvl internal chain pg).subset
              (sowPage_attempts_mem enter (pipeline lvl internal chain pg) points a ha)⟩
        · rcases ih _ a ha with ⟨pg2, hpg2, hg2⟩
          exact ⟨pg2, List.mem_cons_of_mem _ hpg2, hg2⟩
      · intro a ha
        simp only [sowLoop, if_neg hpg, hc, if_false, Bool.false_eq_true] at ha
        exact ⟨pg, List.mem_cons_self _ _,
          (pipeline_sub lvl internal chain pg).subset
            (sowPage_attempts_mem enter (pipeline lvl internal chain pg) points a ha)⟩

theorem sowLoop_entered_eq (enter : Giveaway → String) (lvl : Int)
    (internal : List String) (chain : List Flt) (pages : List (List Giveaway))
    (points : Int) :
    (sowLoop enter lvl internal chain pages points).entered =
      ((sowLoop enter lvl internal chain pages points).attempts.filter
        (fun a => a.status == "ok")).map (fun a => ⟨a.g.title, a.g.href⟩) := by
  induction pages generalizing points with
  | nil => simp [sowLoop]
  | cons pg rest ih =>
    by_cases hpg : pg = []
    · simp [sowLoop, hpg]
    · by_cases hc : (sowPage enter (pipeline lvl internal chain pg) points).cont = true
      · have h1 := sowPage_entered_eq enter (pipeline lvl internal chain pg) points
        have h2 := ih (sowPage enter (pipeline lvl internal chain pg) points).points
        simp [sowLoop, hpg, hc, List.filter_append, List.map_append, h1, h2]
      · have h1 := sowPage_entered_eq enter (pipeline lvl internal chain pg) points
        simpa [sowLoop, hpg, hc] using h1

/-! ### Concrete data for witnesses and counterexamples -/

/-- An entry action that always reports success. -/
def enterOkC : Giveaway → String := fun _ => "ok"

/-- An entry action that always reports failure. -/
def enterFailC : Giveaway → String := fun _ => "error"

/-- A cost-5 candidate. -/
def gFive : Giveaway := mkG "five" 5 ["win"]

/-- A cost-100 candidate. -/
def gHundred : Giveaway := mkG "hundred" 100 ["win"]

/-- A cost-3 candidate. -/
def gThree : Giveaway := mkG "three" 3 ["win"]

/-- A cost-2 candidate on a later page. -/
def gCheap : Giveaway := mkG "cheap" 2 ["win"]

/-- A candidate supporting only Windows. -/
def gWin : Giveaway := mkG "windows-only" 7 ["win"]

/-- A candidate supporting only Linux. -/
def gLin : Giveaway := mkG "linux-only" 7 ["lin"]

/-- A candidate requiring contributor level 5. -/
def gHighLevel : Giveaway :=
  ⟨"high-level", "https://example.com/g/high-level", false, 5, 4, 1, false, true, false, true,
   ["win"]⟩

/-! ### Claim theorems -/

/-- Claim C6: for every filter chain and candidate list the pipeline
output is a subsequence of its input (so its length is at most the input
length and surviving candidates keep their relative order), and the
chain is processed strictly in order, each element consuming the output
of the previous one. -/
theorem pipeline_subsequence (lvl : Int) (internal : List String) (chain : List Flt)
    (gs : List Giveaway) (f : Flt) :
    (pipeline lvl internal chain gs).Sublist gs ∧
    (pipeline lvl internal chain gs).length ≤ gs.length ∧
    pipeline lvl internal (f :: chain) gs =
      pipeline lvl internal chain (chainStep lvl internal gs f) :=
  ⟨pipeline_sub lvl internal chain gs, (pipeline_sub lvl internal chain gs).length_le, rfl⟩

/-- Claim C8: a chain element whose filter name is not a recognized
filter (`getattr` raises `AttributeError`, caught in `_sow`) neither
raises nor removes a candidate: the list passes through unchanged. -/
theorem unknown_filter_noop (lvl : Int) (internal : List String) (gs : List Giveaway)
    (n a : String) (hb : n ∉ bare_filter_names) (ha : n ∉ arged_filter_names) :
    chainStep lvl internal gs (Flt.bare n) = gs ∧
    chainStep lvl internal gs (Flt.arged n a) = gs := by
  simp only [bare_filter_names, List.mem_cons, List.not_mem_nil, or_false, not_or] at hb
  simp only [arged_filter_names, List.mem_cons, List.not_mem_nil, or_false, not_or] at ha
  constructor
  · by_cases hi : isInternal internal (Flt.bare n) = true
    · simp [chainStep, hi]
    · simp [chainStep, hi, applyFilter, hb.1, hb.2.1, hb.2.2.1, hb.2.2.2.1, hb.2.2.2.2.1,
        hb.2.2.2.2.2.1, hb.2.2.2.2.2.2]
  · simp [chainStep, isInternal, applyFilter, ha.1, ha.2.1, ha.2.2.1, ha.2.2.2.1, ha.2.2.2.2]

/-- Witness for C8 at the unrecognized name `"foo"`. -/
theorem unknown_filter_noop_witness :
    "foo" ∉ bare_filter_names ∧ "foo" ∉ arged_filter_names ∧
    (chainStep 1 [] [gFive] (Flt.bare "foo") = [gFive] ∧
     chainStep 1 [] [gFive] (Flt.arged "foo" "1") = [gFive]) :=
  ⟨by decide, by decide, unknown_filter_noop 1 [] [gFive] "foo" "1" (by decide) (by decide)⟩

/-- Claim C9: a failed entry attempt on an affordable candidate changes
nothing — the budget is not deducted, the entered list is not extended —
and the loop continues with the rest of the page from the same state. -/
theorem failed_entry_skips (enter : Giveaway → String) (g : Giveaway)
    (rest : List Giveaway) (points : Int)
    (haff : g.points ≤ points) (hfail : enter g ≠ "ok") :
    sowPage enter (g :: rest) points =
      ⟨(sowPage enter rest points).points,
       (sowPage enter rest points).entered,
       ⟨g, enter g, points, points⟩ :: (sowPage enter rest points).attempts,
       (sowPage enter rest points).cont⟩ := by
  simp [sowPage, haff, hfail]

/-- Witness for C9: a failing attempt on a cost-5 candidate with budget
10 leaves the budget at 10 and the entered list untouched. -/
theorem failed_entry_skips_witness :
    gFive.points ≤ 10 ∧ enterFailC gFive ≠ "ok" ∧
    sowPage enterFailC (gFive :: [gThree]) 10 =
      ⟨(sowPage enterFailC [gThree] 10).points,
       (sowPage enterFailC [gThree] 10).entered,
       ⟨gFive, enterFailC gFive, 10, 10⟩ :: (sowPage enterFailC [gThree] 10).attempts,
       (sowPage enterFailC [gThree] 10).cont⟩ :=
  ⟨by decide, by decide, failed_entry_skips enterFailC gFive [gThree] 10 (by decide) (by decide)⟩

/-- Claim C5 counterexample: the argument `"any"` does not disable the
platform filter — on a Windows-only candidate it filters everything out
instead of returning the list unchanged (the disable token in the code
is `"all"`). -/
theorem arged_filter_os_any_counterexample :
    ¬ (arged_filter_os [gWin] "any" = [gWin]) := by decide

/-- Claim C5 as amended: the special token disabling the platform filter
is `"all"`, not `"any"`; every other token keeps exactly the candidates
whose supported-platform list contains it, preserving order. -/
theorem arged_filter_os_all_disables (gs : List Giveaway) (tok : String) (g : Giveaway)
    (hne : tok ≠ "all") :
    arged_filter_os gs "all" = gs ∧
    (g ∈ arged_filter_os gs tok ↔ g ∈ gs ∧ g.os_list.contains tok = true) ∧
    (arged_filter_os gs tok).Sublist gs := by
  refine ⟨by simp [arged_filter_os], ?_, ?_⟩
  · simp [arged_filter_os, hne, List.mem_filter]
  · simp only [arged_filter_os, if_neg hne]
    exact List.filter_sublist _

/-- Witness for the amended C5 at the token `"win"`. -/
theorem arged_filter_os_all_disables_witness :
    ("win" : String) ≠ "all" ∧
    (arged_filter_os [gWin, gLin] "all" = [gWin, gLin] ∧
     (gWin ∈ arged_filter_os [gWin, gLin] "win" ↔
       gWin ∈ [gWin, gLin] ∧ gWin.os_list.contains "win" = true) ∧
     (arged_filter_os [gWin, gLin] "win").Sublist [gWin, gLin]) :=
  ⟨by decide, arged_filter_os_all_disables [gWin, gLin] "win" gWin (by decide)⟩

/-- Claim C10 counterexample: a parameterized chain element
`['os', 'win']` whose name `os` is in the SteamGifts `internal_filters`
list is not skipped by the local pipeline (the membership test compares
the whole list element against strings), so it does remove a Linux-only
candidate locally. -/
theorem internal_os_filter_counterexample :
    ¬ (pipeline 1 ["library", "level", "os", "wishlist"] [Flt.arged "os" "win"] [gLin] =
        [gLin]) := by decide

/-- Claim C10 as amended: the local pipeline in `_sow` skips a chain
element exactly when the element itself is a bare name occurring in
`internal_filters`; a bare internal name is never applied locally, while
a parameterized element (a two-element list) is always applied locally,
even when its name occurs in `internal_filters`. -/
theorem internal_filter_skip (lvl : Int) (internal : List String) (gs : List Giveaway)
    (n a : String) (hmem : n ∈ internal) :
    chainStep lvl internal gs (Flt.bare n) = gs ∧
    chainStep lvl internal gs (Flt.arged n a) = applyFilter lvl (Flt.arged n a) gs := by
  constructor
  · simp [chainStep, isInternal, hmem]
  · simp [chainStep, isInternal]

/-- Witness for the amended C10: the bare internal name `"level"` is
skipped (a level-5 candidate survives a level-1 account locally), while
the parameterized `["level", "5"]` element would be dispatched. -/
theorem internal_filter_skip_witness :
    ("level" ∈ ["library", "level", "os", "wishlist"]) ∧
    (chainStep 1 ["library", "level", "os", "wishlist"] [gHighLevel] (Flt.bare "level") =
       [gHighLevel] ∧
     chainStep 1 ["library", "level", "os", "wishlist"] [gHighLevel]
         (Flt.arged "level" "5") =
       applyFilter 1 (Flt.arged "level" "5") [gHighLevel]) :=
  ⟨by decide,
   internal_filter_skip 1 ["library", "level", "os", "wishlist"] [gHighLevel] "level" "5"
     (by decide)⟩

/-- Claim C7: a lazy fact read through `caching_property` resolves the
wrapped property exactly once: the first read on a fresh instance calls
it once and caches the value, the second read (indeed each of any
`n + 1` successive reads in total) performs no further call and returns
the cached value, and a resolved slot never changes. -/
theorem caching_property_resolves_once {α : Type} (prop : α) (n : Nat) :
    (caching_property prop none).calls = 1 ∧
    (caching_property prop (caching_property prop none).cache).calls = 0 ∧
    (caching_property prop (caching_property prop none).cache).value =
      (caching_property prop none).value ∧
    (caching_property prop none).value = prop ∧
    (∀ v : α, caching_property prop (some v) = ⟨v, some v, 0⟩) ∧
    readCalls prop none (n + 1) = 1 := by
  refine ⟨rfl, rfl, rfl, rfl, fun v => rfl, ?_⟩
  have hz : ∀ (m : Nat) (v : α), readCalls prop (some v) m = 0 := by
    intro m
    induction m with
    | zero => intro v; rfl
    | succ k ih => intro v; simp [readCalls, caching_property, ih]
  simp [readCalls, caching_property, hz]

/-- Claim C3: each worker cycle puts exactly one result on its queue: an
ok result with the entered and claimed lists when the cycle completes,
and on any fatal condition — in particular a failed login check — one
error result and never an ok result. -/
theorem worker_single_result (sowRun reapRun : Except String (List Entry))
    (s rp reap : List Entry) (rest : Except String (List Entry))
    (enter : Giveaway → String) (lvl : Int) (internal : List String)
    (chain : List Flt) (pages : List (List Giveaway)) (balance : Int) :
    (harvesterStart sowRun reapRun).length = 1 ∧
    harvesterStart (Except.ok s) (Except.ok rp) = [WorkResult.ok s rp] ∧
    harvesterStart (checkedStep false rest) reapRun =
      [WorkResult.error "cannot login, check cookie"] ∧
    countOk (harvesterStart (checkedStep false rest) reapRun) = 0 ∧
    countError (harvesterStart (checkedStep false rest) reapRun) = 1 ∧
    workerCycle false enter lvl internal chain pages balance reap =
      [WorkResult.error "cannot login, check cookie"] ∧
    workerCycle true enter lvl internal chain pages balance reap =
      [WorkResult.ok (sow enter lvl internal chain pages balance).entered reap] := by
  refine ⟨?_, rfl, rfl, rfl, rfl, rfl, rfl⟩
  cases sowRun with
  | error m => rfl
  | ok s2 =>
    cases reapRun with
    | error m => rfl
    | ok r2 => rfl

/-- Claim C1: when the first candidate in iteration order whose cost
exceeds the current remaining budget is encountered (here: on the first
fetched page, split as `pre ++ g :: post` with the run over `pre` not
halting and `g` unaffordable afterwards), the engine halts at once: the
attempted candidates are exactly `pre` — neither `g` nor anything after
it is attempted — only that one page is ever fetched regardless of what
later pages hold, and the run returns precisely the entries and budget
accumulated over `pre`. -/
theorem sow_halt_on_unaffordable (enter : Giveaway → String) (lvl : Int)
    (internal : List String) (chain : List Flt) (firstPage : List Giveaway)
    (rest : List (List Giveaway)) (balance : Int) (pre : List Giveaway)
    (g : Giveaway) (post : List Giveaway)
    (hsplit : pipeline lvl internal chain firstPage = pre ++ g :: post)
    (hcont : (sowPage enter pre balance).cont = true)
    (hexp : (sowPage enter pre balance).points < g.points) :
    (sow enter lvl internal chain (firstPage :: rest) balance).attempts.map
      (fun a => a.g) = pre ∧
    (sow enter lvl internal chain (firstPage :: rest) balance).pagesFetched = 1 ∧
    (sow enter lvl internal chain (firstPage :: rest) balance).entered =
      (sowPage enter pre balance).entered ∧
    (sow enter lvl internal chain (firstPage :: rest) balance).points =
      (sowPage enter pre balance).points := by
  have hne : firstPage ≠ [] := by
    intro h
    rw [h] at hsplit
    have hsub := pipeline_sub lvl internal chain ([] : List Giveaway)
    rw [hsplit] at hsub
    simp at hsub
  have hhalt := sowPage_append_halt enter pre g post balance hcont hexp
  rw [← hsplit] at hhalt
  have hmain : sow enter lvl internal chain (firstPage :: rest) balance =
      ⟨(sowPage enter pre balance).entered, (sowPage enter pre balance).points,
       (sowPage enter pre balance).attempts, 1⟩ := by
    simp [sow, sowLoop, hne, hhalt]
  rw [hmain]
  exact ⟨sowPage_cont_map enter pre balance hcont, rfl, rfl, rfl⟩

/-- Witness for C1: budget 10, first page of costs `[5, 100, 3]`, a
later page holding an affordable cost-2 candidate; the run attempts only
the cost-5 candidate, fetches one page, enters exactly that candidate
and ends with budget 5. -/
theorem sow_halt_on_unaffordable_witness :
    pipeline 1 [] [] [gFive, gHundred, gThree] = [gFive] ++ gHundred :: [gThree] ∧
    (sowPage enterOkC [gFive] 10).cont = true ∧
    (sowPage enterOkC [gFive] 10).points < gHundred.points ∧
    ((sow enterOkC 1 [] [] [[gFive, gHundred, gThree], [gCheap]] 10).attempts.map
       (fun a => a.g) = [gFive] ∧
     (sow enterOkC 1 [] [] [[gFive, gHundred, gThree], [gCheap]] 10).pagesFetched = 1 ∧
     (sow enterOkC 1 [] [] [[gFive, gHundred, gThree], [gCheap]] 10).entered =
       (sowPage enterOkC [gFive] 10).entered ∧
     (sow enterOkC 1 [] [] [[gFive, gHundred, gThree], [gCheap]] 10).points =
       (sowPage enterOkC [gFive] 10).points) :=
  ⟨by decide, by decide, by decide,
   sow_halt_on_unaffordable enterOkC 1 [] [] [gFive, gHundred, gThree] [[gCheap]] 10
     [gFive] gHundred [gThree] (by decide) (by decide) (by decide)⟩

theorem okCost_nonneg (attempts : List Attempt)
    (h : ∀ a ∈ attempts, 0 ≤ a.g.points) : 0 ≤ okCost attempts := by
  induction attempts with
  | nil => simp [okCost]
  | cons a rest ih =>
    have h1 := h a (List.mem_cons_self _ _)
    have h2 := ih (fun b hb => h b (List.mem_cons_of_mem _ hb))
    simp only [okCost]
    split <;> omega

/-- Claim C2: for any completed cycle from a non-negative balance with
non-negative candidate costs, the final budget is exactly the initial
balance minus the total cost of the entered (successful) attempts, that
total is at most the initial balance, the budget trace is one connected
chain from the initial balance to the final budget whose steps change
only on a successful attempt — and then by exactly that cost — and is
monotonically non-increasing; the returned entered list is exactly the
title-and-link pairs of the successful attempts. -/
theorem sow_budget_invariant (enter : Giveaway → String) (lvl : Int)
    (internal : List String) (chain : List Flt) (pages : List (List Giveaway))
    (balance : Int) (hb : 0 ≤ balance)
    (hc : ∀ pg ∈ pages, ∀ g ∈ pg, 0 ≤ g.points) :
    (sow enter lvl internal chain pages balance).points =
      balance - okCost (sow enter lvl internal chain pages balance).attempts ∧
    okCost (sow enter lvl internal chain pages balance).attempts ≤ balance ∧
    (sow enter lvl internal chain pages balance).points ≤ balance ∧
    linked balance (sow enter lvl internal chain pages balance).attempts
      (sow enter lvl internal chain pages balance).points = true ∧
    (∀ a ∈ (sow enter lvl internal chain pages balance).attempts,
      a.after = if a.status = "ok" then a.before - a.g.points else a.before) ∧
    (∀ a ∈ (sow enter lvl internal chain pages balance).attempts, a.after ≤ a.before) ∧
    (sow enter lvl internal chain pages balance).entered =
      ((sow enter lvl internal chain pages balance).attempts.filter
        (fun a => a.status == "ok")).map (fun a => ⟨a.g.title, a.g.href⟩) := by
  have hpts : (sow enter lvl internal chain pages balance).points =
      balance - okCost (sow enter lvl internal chain pages balance).attempts :=
    sowLoop_points_eq enter lvl internal chain pages balance
  have hnn : 0 ≤ (sow enter lvl internal chain pages balance).points :=
    sowLoop_points_nonneg enter lvl internal chain pages balance hb
  have hlink := sowLoop_linked enter lvl internal chain pages balance
  have hstep := sowLoop_attempt_eq enter lvl internal chain pages balance
  have hent := sowLoop_entered_eq enter lvl internal chain pages balance
  have hcost : ∀ a ∈ (sow enter lvl internal chain pages balance).attempts,
      0 ≤ a.g.points := by
    intro a ha
    rcases sowLoop_attempts_g_mem enter lvl internal chain pages balance a ha with
      ⟨pg, hpg, hg⟩
    exact hc pg hpg a.g hg
  have hok := okCost_nonneg _ hcost
  refine ⟨hpts, by omega, by omega, hlink, hstep, ?_, hent⟩
  intro a ha
  have h1 := hstep a ha
  have h2 := hcost a ha
  by_cases hs : a.status = "ok"
  · rw [hs] at h1; simp at h1; omega
  · rw [if_neg hs] at h1; omega

/-- Witness for C2: budget 10, one page of costs `[5, 3]`, every attempt
succeeding. -/
theorem sow_budget_invariant_witness :
    (0 : Int) ≤ 10 ∧
    (∀ pg ∈ [[gFive, gThree]], ∀ g ∈ pg, 0 ≤ g.points) ∧
    ((sow enterOkC 1 [] [] [[gFive, gThree]] 10).points =
       10 - okCost (sow enterOkC 1 [] [] [[gFive, gThree]] 10).attempts ∧
     okCost (sow enterOkC 1 [] [] [[gFive, gThree]] 10).attempts ≤ 10 ∧
     (sow enterOkC 1 [] [] [[gFive, gThree]] 10).points ≤ 10 ∧
     linked 10 (sow enterOkC 1 [] [] [[gFive, gThree]] 10).attempts
       (sow enterOkC 1 [] [] [[gFive, gThree]] 10).points = true ∧
     (∀ a ∈ (sow enterOkC 1 [] [] [[gFive, gThree]] 10).attempts,
       a.after = if a.status = "ok" then a.before - a.g.points else a.before) ∧
     (∀ a ∈ (sow enterOkC 1 [] [] [[gFive, gThree]] 10).attempts, a.after ≤ a.before) ∧
     (sow enterOkC 1 [] [] [[gFive, gThree]] 10).entered =
       ((sow enterOkC 1 [] [] [[gFive, gThree]] 10).attempts.filter
         (fun a => a.status == "ok")).map (fun a => ⟨a.g.title, a.g.href⟩)) :=
  ⟨by decide, by decide,
   sow_budget_invariant enterOkC 1 [] [] [[gFive, gThree]] 10 (by decide) (by decide)⟩

theorem mergeFoldl_count_le (x : Flt) (cfg : List Flt) (acc : List Flt)
    (h : acc.count x ≤ 1) :
    (cfg.foldl (fun acc y => if y ∈ acc then acc else acc ++ [y]) acc).count x ≤ 1 := by
  induction cfg generalizing acc with
  | nil => exact h
  | cons y cfg ih =>
    simp only [List.foldl_cons]
    by_cases hy : y ∈ acc
    · rw [if_pos hy]
      exact ih acc h
    · rw [if_neg hy]
      apply ih
      rw [List.count_append]
      by_cases hxy : x = y
      · subst hxy
        have h0 : acc.count x = 0 := List.count_eq_zero.mpr hy
        simp [h0]
      · have h0 : List.count x [y] = 0 := by
          simp [List.count_singleton', hxy]
        omega

theorem mergeFoldl_mem (x : Flt) (cfg : List Flt) (acc : List Flt)
    (h : x ∈ acc ∨ x ∈ cfg) :
    x ∈ cfg.foldl (fun acc y => if y ∈ acc then acc else acc ++ [y]) acc := by
  induction cfg generalizing acc with
  | nil => simpa using h
  | cons y cfg ih =>
    simp only [List.foldl_cons]
    rcases h with h | h
    · refine ih _ (Or.inl ?_)
      by_cases hy : y ∈ acc
      · simpa [hy] using h
      · rw [if_neg hy]
        exact List.mem_append_left _ h
    · rcases List.mem_cons.mp h with rfl | h2
      · refine ih _ (Or.inl ?_)
        by_cases hy : x ∈ acc
        · simp [hy]
        · rw [if_neg hy]
          exact List.mem_append_right _ (by simp)
      · exact ih _ (Or.inr h2)

/-- Claim C4 counterexample: with the SteamGifts required filters
`['entered', 'level', 'library']` and configured filters
`['library', 'wishlist']` — `library` explicitly requested — the
effective chain still contains no `library` filter, so an explicit
request does not retain it alongside `wishlist`. -/
theorem explicit_library_not_retained :
    Flt.bare "library" ∉ buildFilters
      [Flt.bare "entered", Flt.bare "level", Flt.bare "library"]
      [Flt.bare "library", Flt.bare "wishlist"]
      [] := by decide

/-- Claim C4 as amended: whenever the wishlist filter survives into the
chain (requested or required, and not disabled) and the required list
carries at most one `library` element (the append step never introduces
a duplicate), the `library` filter — implicit default or explicitly
requested alike — is absent from the effective chain built at
construction. -/
theorem buildFilters_wishlist_removes_library
    (required configured disabled : List Flt)
    (hcount : required.count (Flt.bare "library") ≤ 1)
    (hw : Flt.bare "wishlist" ∈ required ∨ Flt.bare "wishlist" ∈ configured)
    (hwd : Flt.bare "wishlist" ∉ disabled) :
    Flt.bare "library" ∉ buildFilters required configured disabled := by
  have hmw : Flt.bare "wishlist" ∈
      configured.foldl (fun acc y => if y ∈ acc then acc else acc ++ [y]) required :=
    mergeFoldl_mem _ configured required hw
  have hcm : (configured.foldl (fun acc y => if y ∈ acc then acc else acc ++ [y])
      required).count (Flt.bare "library") ≤ 1 :=
    mergeFoldl_count_le _ configured required hcount
  have hme : Flt.bare "wishlist" ∈
      (configured.foldl (fun acc y => if y ∈ acc then acc else acc ++ [y])
        required).filter (fun f => decide (f ∉ disabled)) :=
    List.mem_filter.mpr ⟨hmw, by simpa using hwd⟩
  have hce : ((configured.foldl (fun acc y => if y ∈ acc then acc else acc ++ [y])
      required).filter (fun f => decide (f ∉ disabled))).count (Flt.bare "library") ≤ 1 :=
    le_trans ((List.filter_sublist _).count_le _) hcm
  simp only [buildFilters]
  rw [if_pos hme]
  intro hmem
  have h1 := List.count_erase_self (Flt.bare "library")
    ((configured.foldl (fun acc y => if y ∈ acc then acc else acc ++ [y])
      required).filter (fun f => decide (f ∉ disabled)))
  have h2 : 0 < (((configured.foldl (fun acc y => if y ∈ acc then acc else acc ++ [y])
      required).filter (fun f => decide (f ∉ disabled))).erase
        (Flt.bare "library")).count (Flt.bare "library") :=
    List.count_pos_iff.mpr hmem
  omega

/-- Witness for the amended C4: the SteamGifts defaults with only
`wishlist` (and `dlc`) configured. -/
theorem buildFilters_wishlist_removes_library_witness :
    ([Flt.bare "entered", Flt.bare "level", Flt.bare "library"].count
      (Flt.bare "library") ≤ 1) ∧
    (Flt.bare "wishlist" ∈ [Flt.bare "entered", Flt.bare "level", Flt.bare "library"] ∨
      Flt.bare "wishlist" ∈ [Flt.bare "wishlist", Flt.bare "dlc"]) ∧
    Flt.bare "wishlist" ∉ ([] : List Flt) ∧
    Flt.bare "library" ∉ buildFilters
      [Flt.bare "entered", Flt.bare "level", Flt.bare "library"]
      [Flt.bare "wishlist", Flt.bare "dlc"] [] :=
  ⟨by decide, by decide, by decide,
   buildFilters_wishlist_removes_library
     [Flt.bare "entered", Flt.bare "level", Flt.bare "library"]
     [Flt.bare "wishlist", Flt.bare "dlc"] []
     (by decide) (by decide) (by decide)⟩
